import Mathlib

/-!
Verification of the amethyst RakNet server implementation.

This file gives a shallow embedding, in Lean 4, of the parts of the
amethyst source that the verified properties talk about:

* the binary reader primitives of `src/utils/binary.rs` (modelled over
  `List Nat` byte streams; every multi-byte integer is decoded exactly as
  the Rust `bytes` accessors do);
* `Reliability`, `EncapsulatedPacket` and its `decode` from
  `src/raknet/protocol/datagram.rs` (the `u16` bit-length arithmetic is
  modelled with an explicit `% 2^16`, matching release-mode wrapping);
* `AckNack::decode`, `extract_sequence_numbers` and
  `optimize_ack_nack_records` from `src/raknet/protocol/ack.rs`;
* the `ReceiveWindow` of `src/raknet/reliability/receive_window.rs`
  (sets are association lists, `HashMap`s keyed by channel are modelled
  as total functions with the `or_default` / `or_insert(0)` defaults);
* the `SendWindow` of `src/raknet/reliability/send_window.rs`
  (`Instant`/`Duration` values are modelled as rationals; the `f64`
  smoothing arithmetic of `update_rto` is carried out exactly over `ℚ`,
  which does not affect the clamping bounds proved below; `usize`
  saturating arithmetic saturates at `2^64 - 1`);
* the `ConnectionRequestAccepted` writer of `src/raknet/session.rs` and
  the `handle_open_connection_request_1` handler of
  `src/raknet/protocol/mod.rs`.

All state-passing is explicit; every definition is executable.
-/

set_option maxRecDepth 100000

namespace Amethyst

/-- Errors of the binary layer (`BinaryError` in `src/utils/binary.rs`);
only the variants reachable from the modelled code are included. -/
inductive BinaryError where
  | unexpectedEof (needed remaining : Nat)
  | invalidData (msg : String)
  deriving DecidableEq, Repr

/-- Reads one byte (`read_u8` / `get_u8` with the `check_remaining` guard). -/
def readU8 : List Nat → Except BinaryError (Nat × List Nat)
  | [] => .error (.unexpectedEof 1 0)
  | b :: r => .ok (b, r)

/-- Reads a big-endian `u16` (`read_u16_be`). -/
def readU16be : List Nat → Except BinaryError (Nat × List Nat)
  | a :: b :: r => .ok (a * 256 + b, r)
  | l => .error (.unexpectedEof 2 l.length)

/-- Reads a little-endian 24-bit triad (`read_u24_le`). -/
def readU24le : List Nat → Except BinaryError (Nat × List Nat)
  | a :: b :: c :: r => .ok (a + b * 256 + c * 65536, r)
  | l => .error (.unexpectedEof 3 l.length)

/-- Reads a big-endian `u32` (`read_u32_be`). -/
def readU32be : List Nat → Except BinaryError (Nat × List Nat)
  | a :: b :: c :: d :: r => .ok (((a * 256 + b) * 256 + c) * 256 + d, r)
  | l => .error (.unexpectedEof 4 l.length)

/-- Big-endian `u16` encoding (`write_u16_be`). -/
def u16beBytes (n : Nat) : List Nat := [n / 256 % 256, n % 256]

/-- Little-endian 24-bit triad encoding (`write_u24_le`). -/
def u24leBytes (n : Nat) : List Nat := [n % 256, n / 256 % 256, n / 65536 % 256]

/-- Big-endian `u64` encoding; `write_i64_be` applied to the nonnegative
values the modelled code actually writes. -/
def u64beBytes (n : Nat) : List Nat :=
  [n / 2 ^ 56 % 256, n / 2 ^ 48 % 256, n / 2 ^ 40 % 256, n / 2 ^ 32 % 256,
   n / 2 ^ 24 % 256, n / 2 ^ 16 % 256, n / 2 ^ 8 % 256, n % 256]

/-- The `Reliability` enum of `src/raknet/protocol/datagram.rs`. -/
inductive Reliability where
  | unreliable
  | unreliableSequenced
  | reliable
  | reliableOrdered
  | reliableSequenced
  | unreliableWithAckReceipt
  | reliableWithAckReceipt
  | reliableOrderedWithAckReceipt
  deriving DecidableEq, Repr

namespace Reliability

/-- `Reliability::from_u8` (via `num_enum::TryFromPrimitive`). -/
def fromU8 : Nat → Except BinaryError Reliability
  | 0 => .ok .unreliable
  | 1 => .ok .unreliableSequenced
  | 2 => .ok .reliable
  | 3 => .ok .reliableOrdered
  | 4 => .ok .reliableSequenced
  | 5 => .ok .unreliableWithAckReceipt
  | 6 => .ok .reliableWithAckReceipt
  | 7 => .ok .reliableOrderedWithAckReceipt
  | _ => .error (.invalidData "Invalid reliability ID")

/-- `Reliability::is_reliable`. -/
def isReliable : Reliability → Bool
  | .reliable | .reliableOrdered | .reliableSequenced
  | .reliableWithAckReceipt | .reliableOrderedWithAckReceipt => true
  | _ => false

/-- `Reliability::is_ordered`. -/
def isOrdered : Reliability → Bool
  | .reliableOrdered | .reliableOrderedWithAckReceipt => true
  | _ => false

/-- `Reliability::is_sequenced`. -/
def isSequenced : Reliability → Bool
  | .unreliableSequenced | .reliableSequenced => true
  | _ => false

/-- `Reliability::needs_ordering_info`. -/
def needsOrderingInfo (r : Reliability) : Bool :=
  r.isOrdered || r.isSequenced

end Reliability

/-- `EncapsulatedPacket` of `src/raknet/protocol/datagram.rs`; the payload
buffer is a byte list, metadata mirrors the Rust struct. -/
structure EncapsulatedPacket where
  reliability : Reliability
  isSplit : Bool
  messageIndex : Option Nat
  sequenceIndex : Option Nat
  orderIndex : Option Nat
  orderChannel : Option Nat
  splitCount : Option Nat
  splitId : Option Nat
  splitIndex : Option Nat
  buffer : List Nat
  ackId : Option Nat
  deriving DecidableEq, Repr

namespace EncapsulatedPacket

/-- `EncapsulatedPacket::header_size`. -/
def headerSize (p : EncapsulatedPacket) : Nat :=
  1 + 2
    + (if p.reliability.isReliable then 3 else 0)
    + (if p.reliability.isSequenced then 3 else 0)
    + (if p.reliability.isOrdered || p.reliability.isSequenced then 3 + 1 else 0)
    + (if p.isSplit then 4 + 2 + 4 else 0)

/-- `EncapsulatedPacket::calculate_size`. -/
def calculateSize (p : EncapsulatedPacket) : Nat :=
  p.headerSize + p.buffer.length

end EncapsulatedPacket

/-- The byte length `EncapsulatedPacket::decode` derives from the `u16`
bit-length field: `(length_bits + 7) / 8` in wrapping `u16` arithmetic. -/
def encapLengthBytes (lengthBits : Nat) : Nat :=
  (lengthBits + 7) % 65536 / 8

/-- `EncapsulatedPacket::decode` from `src/raknet/protocol/datagram.rs`,
returning the decoded packet together with the unconsumed bytes. -/
def EncapsulatedPacket.decode (reader : List Nat) :
    Except BinaryError (EncapsulatedPacket × List Nat) := do
  if reader.length < 3 then
    throw (.unexpectedEof 3 reader.length)
  let (flags, r0) ← readU8 reader
  let reliability ← Reliability.fromU8 (flags / 32)
  let isSplit := Nat.testBit flags 4
  let (lengthBits, r1) ← readU16be r0
  let lengthBytes := encapLengthBytes lengthBits
  let (messageIndex, r2) ←
    if reliability.isReliable then do
      let (v, r) ← readU24le r1
      pure (some v, r)
    else pure (none, r1)
  let (sequenceIndex, r3) ←
    if reliability.isSequenced then do
      let (v, r) ← readU24le r2
      pure (some v, r)
    else pure (none, r2)
  let (orderIndex, orderChannel, r4) ←
    if reliability.isOrdered || reliability.isSequenced then do
      let (oi, ra) ← readU24le r3
      let (oc, rb) ← readU8 ra
      pure (some oi, some oc, rb)
    else pure (none, none, r3)
  let (splitCount, splitId, splitIndex, r5) ←
    if isSplit then do
      let (sc, ra) ← readU32be r4
      let (si, rb) ← readU16be ra
      let (sx, rc) ← readU32be rb
      pure (some sc, some si, some sx, rc)
    else pure (none, none, none, r4)
  if r5.length < lengthBytes then
    throw (.unexpectedEof lengthBytes r5.length)
  pure ({ reliability, isSplit, messageIndex, sequenceIndex, orderIndex,
          orderChannel, splitCount, splitId, splitIndex,
          buffer := r5.take lengthBytes, ackId := none },
        r5.drop lengthBytes)

/-- `Datagram` of `src/raknet/protocol/datagram.rs`; `Instant` metadata is
modelled as rational timestamps. -/
structure Datagram where
  headerFlags : Nat
  sequenceNumber : Nat
  packets : List EncapsulatedPacket
  sendTime : Option ℚ
  nextSendTime : Option ℚ
  sizeForCongestionControl : Option Nat
  deriving DecidableEq, Repr

/-- `AckNackRecord` of `src/raknet/protocol/ack.rs`. -/
inductive AckNackRecord where
  | single (seq : Nat)
  | range (start fin : Nat)
  deriving DecidableEq, Repr

/-- `AckNack` packet structure. -/
structure AckNack where
  isNack : Bool
  records : List AckNackRecord
  deriving DecidableEq, Repr

/-- `MAX_RANGE_SIZE` of `src/raknet/protocol/ack.rs`. -/
def MAX_RANGE_SIZE : Nat := 512

/-- `MAX_RECORDS` of `src/raknet/protocol/ack.rs`. -/
def MAX_RECORDS : Nat := 8192

/-- The body of one loop iteration of `AckNack::decode` once the record
type byte has been read: parses a range record, rejecting `start > end`
and clamping the stored range to `MAX_RANGE_SIZE` numbers. -/
def parseRangeRecord (rest : List Nat) :
    Except BinaryError (AckNackRecord × List Nat) :=
  match readU24le rest with
  | .error err => .error err
  | .ok (start, r1) =>
    match readU24le r1 with
    | .error err => .error err
    | .ok (fin, r2) =>
      if start > fin then
        .error (.invalidData "Invalid range record: start greater than end")
      else
        let actualEnd :=
          if fin - start ≥ MAX_RANGE_SIZE then start + MAX_RANGE_SIZE - 1 else fin
        .ok (.range start actualEnd, r2)

/-- The record-reading loop of `AckNack::decode`: reads up to `count`
records, stopping early (without error) once `MAX_RECORDS` records have
been accumulated. -/
def decodeRecordsLoop : Nat → List Nat → List AckNackRecord →
    Except BinaryError (List AckNackRecord)
  | 0, _, acc => .ok acc
  | count + 1, reader, acc =>
    if reader.length = 0 then .error (.unexpectedEof 1 0)
    else
      match readU8 reader with
      | .error err => .error err
      | .ok (recordType, r1) =>
        let step : Except BinaryError (AckNackRecord × List Nat) :=
          match recordType with
          | 0 => parseRangeRecord r1
          | 1 =>
            match readU24le r1 with
            | .error err => .error err
            | .ok (seq, r) => .ok (.single seq, r)
          | _ => .error (.invalidData "Unknown record type")
        match step with
        | .error err => .error err
        | .ok (record, r2) =>
          let acc2 := acc ++ [record]
          if acc2.length ≥ MAX_RECORDS then .ok acc2
          else decodeRecordsLoop count r2 acc2

/-- `AckNack::decode` (the packet-id byte has already been consumed). -/
def AckNack.decode (reader : List Nat) (isNack : Bool) :
    Except BinaryError AckNack :=
  match readU16be reader with
  | .error err => .error err
  | .ok (recordCount, r1) =>
    match decodeRecordsLoop recordCount r1 [] with
    | .error err => .error err
    | .ok records => .ok { isNack, records }

/-- `AckNack::extract_sequence_numbers`. -/
def extractSequenceNumbers (records : List AckNackRecord) : List Nat :=
  records.foldl
    (fun acc r =>
      match r with
      | .single n => acc ++ [n]
      | .range s e => acc ++ List.range' s (e + 1 - s))
    []

/-- One iteration of the main loop of `optimize_ack_nack_records`: the
state is `(records, start, current)`. -/
def optimizeStep (st : List AckNackRecord × Nat × Nat) (seqNum : Nat) :
    List AckNackRecord × Nat × Nat :=
  let (records, start, current) := st
  let (records, start, current) :=
    if seqNum = current + 1 then
      (records, start, seqNum)
    else
      let records :=
        if start = current then
          records ++ [.single start]
        else
          let actualEnd :=
            if current - start ≥ MAX_RANGE_SIZE then start + MAX_RANGE_SIZE - 1 else current
          let records := records ++ [.range start actualEnd]
          if actualEnd < current then
            let start2 := actualEnd + 1
            if start2 < current then records ++ [.range start2 current]
            else if start2 = current then records ++ [.single current]
            else records
          else records
      (records, seqNum, seqNum)
  if current - start ≥ MAX_RANGE_SIZE then
    (records ++ [.range start current], current + 1, current + 1)
  else
    (records, start, current)

/-- `optimize_ack_nack_records` of `src/raknet/protocol/ack.rs`. -/
def optimize_ack_nack_records (sortedSeqNums : List Nat) : List AckNackRecord :=
  match sortedSeqNums with
  | [] => []
  | first :: rest =>
    let (records, start, current) := rest.foldl optimizeStep ([], first, first)
    if start = current then records ++ [.single start]
    else records ++ [.range start current]

/-- Pointwise update of a channel-indexed map; models writing through a
`HashMap` entry, with absent keys behaving as the default value. -/
def updateFn {α : Type} (f : Nat → α) (k : Nat) (v : α) : Nat → α :=
  fun x => if x = k then v else f x

/-- Removes the entry with key `k` from an association list, returning the
removed value (if any) and the remainder; models `HashMap::remove` and
`BTreeMap::remove`. -/
def qremove {α : Type} (k : Nat) : List (Nat × α) → Option α × List (Nat × α)
  | [] => (none, [])
  | (k1, v) :: rest =>
    if k1 = k then (some v, rest)
    else
      let (r, rest2) := qremove k rest
      (r, (k1, v) :: rest2)

/-- Inserts `(k, v)` into an association list, replacing any existing
binding for `k`; models `HashMap::insert`. -/
def qinsert {α : Type} (k : Nat) (v : α) (l : List (Nat × α)) : List (Nat × α) :=
  (k, v) :: (qremove k l).2

/-- Inserts an element into a list used as a set (`BTreeSet::insert` /
`Vec` with a membership guard). -/
def setInsert (x : Nat) (s : List Nat) : List Nat :=
  if x ∈ s then s else s ++ [x]

/-- Greatest element of a list used as a set (`BTreeSet::iter().next_back()`). -/
def setMax? (s : List Nat) : Option Nat :=
  s.foldl
    (fun acc x =>
      match acc with
      | none => some x
      | some m => some (max m x))
    none

/-- `u32::wrapping_sub`. -/
def wrappingSub32 (a b : Nat) : Nat := (2 ^ 32 + a - b) % 2 ^ 32

/-- `MAX_RECV_WINDOW_SIZE` of `src/raknet/reliability/receive_window.rs`. -/
def MAX_RECV_WINDOW_SIZE : Nat := 2048

/-- The `ReceiveWindow` state of `src/raknet/reliability/receive_window.rs`.
The two `BTreeSet`s and the ACK `Vec` are lists; the two channel-keyed
`HashMap`s are total functions whose defaults mirror `or_default` (empty
queue) and `or_insert(0)` (next order index zero). -/
structure ReceiveWindow where
  expectedSequenceNumber : Nat
  receivedDatagrams : List Nat
  highestReceivedInWindow : Nat
  orderingQueues : Nat → List (Nat × EncapsulatedPacket)
  nextOrderIndices : Nat → Nat
  ackQueue : List Nat
  nackQueue : List Nat

/-- `ReceiveWindow::new`. -/
def ReceiveWindow.new : ReceiveWindow :=
  { expectedSequenceNumber := 0, receivedDatagrams := [], highestReceivedInWindow := 0,
    orderingQueues := fun _ => [], nextOrderIndices := fun _ => 0,
    ackQueue := [], nackQueue := [] }

/-- The advance loop of `ReceiveWindow::handle_datagram` step 4, with
explicit fuel: each iteration erases one member of the received set, so
fuel equal to the set size makes the recursion exact. -/
def advanceExpectedFuel : Nat → List Nat → List Nat → Nat →
    List Nat × List Nat × Nat
  | 0, received, nack, expected => (received, nack, expected)
  | fuel + 1, received, nack, expected =>
    if expected ∈ received then
      advanceExpectedFuel fuel (received.erase expected) (nack.erase expected)
        ((expected + 1) % 2 ^ 32)
    else (received, nack, expected)

/-- Step 4 of `ReceiveWindow::handle_datagram`: advance the expected
sequence number past contiguous received entries, dropping them from the
received set and the NACK queue. -/
def advanceExpected (received nack : List Nat) (expected : Nat) :
    List Nat × List Nat × Nat :=
  advanceExpectedFuel received.length received nack expected

/-- The drain loop of the ordered-delivery branch (`while let Some(qp) =
queue.remove(next_expected)`), with explicit fuel; each successful
removal shrinks the queue by one element, so fuel equal to the queue
length makes the recursion exact. -/
def drainFuel : Nat → List (Nat × EncapsulatedPacket) → Nat →
    List EncapsulatedPacket × List (Nat × EncapsulatedPacket) × Nat
  | 0, queue, nextIdx => ([], queue, nextIdx)
  | fuel + 1, queue, nextIdx =>
    match qremove nextIdx queue with
    | (some p, q) =>
      let (ps, q2, n2) := drainFuel fuel q ((nextIdx + 1) % 2 ^ 32)
      (p :: ps, q2, n2)
    | (none, _) => ([], queue, nextIdx)

/-- Drains consecutively-indexed packets from an ordering queue starting
at `nextIdx`. -/
def drainQueue (queue : List (Nat × EncapsulatedPacket)) (nextIdx : Nat) :
    List EncapsulatedPacket × List (Nat × EncapsulatedPacket) × Nat :=
  drainFuel queue.length queue nextIdx

/-- Step 5 of `ReceiveWindow::handle_datagram` for one encapsulated
packet: unordered packets are delivered immediately; packets needing
ordering info are delivered, queued, or discarded according to their
order index relative to the channel's next expected index. -/
def processEncap (w : ReceiveWindow) (p : EncapsulatedPacket) :
    ReceiveWindow × List EncapsulatedPacket :=
  if p.reliability.needsOrderingInfo then
    match p.orderChannel with
    | some channel =>
      match p.orderIndex with
      | some orderIndex =>
        let queue := w.orderingQueues channel
        let nextExpected := w.nextOrderIndices channel
        if orderIndex = nextExpected then
          let (ps, q2, n2) := drainQueue queue ((nextExpected + 1) % 2 ^ 32)
          ({ w with orderingQueues := updateFn w.orderingQueues channel q2,
                    nextOrderIndices := updateFn w.nextOrderIndices channel n2 },
           p :: ps)
        else if orderIndex > nextExpected then
          ({ w with orderingQueues :=
               updateFn w.orderingQueues channel (qinsert orderIndex p queue) }, [])
        else
          (w, [])
      | none => (w, [])
    | none => (w, [])
  else
    (w, [p])

/-- Runs `processEncap` over the packets of one datagram in order,
concatenating the ready packets in delivery order. -/
def processPackets (w : ReceiveWindow) :
    List EncapsulatedPacket → ReceiveWindow × List EncapsulatedPacket
  | [] => (w, [])
  | p :: ps =>
    let (w1, out) := processEncap w p
    let (w2, out2) := processPackets w1 ps
    (w2, out ++ out2)

/-- `ReceiveWindow::handle_datagram`. -/
def ReceiveWindow.handleDatagram (w : ReceiveWindow) (d : Datagram) :
    ReceiveWindow × Option (List EncapsulatedPacket) :=
  let seq := d.sequenceNumber
  if seq < w.expectedSequenceNumber ∨ seq ∈ w.receivedDatagrams then
    (w, none)
  else
    let windowViolation : Bool :=
      match setMax? w.receivedDatagrams with
      | some maxInWindow => wrappingSub32 seq maxInWindow > MAX_RECV_WINDOW_SIZE
      | none => wrappingSub32 seq w.expectedSequenceNumber > MAX_RECV_WINDOW_SIZE
    if windowViolation then (w, none)
    else
      let received := setInsert seq w.receivedDatagrams
      let ackQueue := w.ackQueue ++ [seq]
      let nackQueue := w.nackQueue.erase seq
      let highest := max w.highestReceivedInWindow seq
      let nackQueue :=
        if seq > w.expectedSequenceNumber then
          (List.range' w.expectedSequenceNumber (seq - w.expectedSequenceNumber)).foldl
            (fun nq missing => if missing ∈ received then nq else setInsert missing nq)
            nackQueue
        else nackQueue
      let (received, nackQueue, expected) :=
        advanceExpected received nackQueue w.expectedSequenceNumber
      let w1 : ReceiveWindow :=
        { w with expectedSequenceNumber := expected, receivedDatagrams := received,
                 highestReceivedInWindow := highest, ackQueue := ackQueue,
                 nackQueue := nackQueue }
      let (w2, ready) := processPackets w1 d.packets
      (w2, if ready.isEmpty then none else some ready)

/-- Runs a receive window over a list of datagrams in order,
concatenating all packets delivered upstream, in delivery order. -/
def runReceiveFrom (w : ReceiveWindow) :
    List Datagram → ReceiveWindow × List EncapsulatedPacket
  | [] => (w, [])
  | d :: ds =>
    let (w1, out) := w.handleDatagram d
    let (w2, out2) := runReceiveFrom w1 ds
    (w2, out.getD [] ++ out2)

/-- Runs a fresh receive window over a list of datagrams. -/
def runReceive (ds : List Datagram) : ReceiveWindow × List EncapsulatedPacket :=
  runReceiveFrom ReceiveWindow.new ds

/-- Order indices of the delivered packets that went through the
ordering machinery on channel `c`, in delivery order. -/
def deliveredOnChannel (c : Nat) (out : List EncapsulatedPacket) : List Nat :=
  out.filterMap
    (fun p =>
      if p.reliability.needsOrderingInfo = true ∧ p.orderChannel = some c then p.orderIndex
      else none)

/-- Well-formedness of a packet handed to the receive window: the order
index fits in a `u32`, as Rust's types guarantee. -/
def WFPacket (p : EncapsulatedPacket) : Prop :=
  p.orderIndex.getD 0 < 2 ^ 32

/-- Well-formedness of a datagram handed to the receive window. -/
def WFDatagram (d : Datagram) : Prop :=
  ∀ p ∈ d.packets, WFPacket p

/-- `RTT_ALPHA` of `src/raknet/reliability/send_window.rs` (1/8). -/
def RTT_ALPHA : ℚ := 1 / 8

/-- `RTT_BETA` (1/4). -/
def RTT_BETA : ℚ := 1 / 4

/-- `MIN_RTO` (100 ms), in seconds. -/
def MIN_RTO : ℚ := 1 / 10

/-- `MAX_RTO` (5 s), in seconds. -/
def MAX_RTO : ℚ := 5

/-- `INITIAL_RTO` (500 ms), in seconds. -/
def INITIAL_RTO : ℚ := 1 / 2

/-- `INITIAL_CWND_PACKETS`. -/
def INITIAL_CWND_PACKETS : Nat := 2

/-- `MIN_CWND_BYTES`. -/
def MIN_CWND_BYTES : Nat := 1400

/-- `usize::MAX` on a 64-bit target; saturating arithmetic caps here. -/
def USIZE_MAX : Nat := 2 ^ 64 - 1

/-- `usize::saturating_add`. -/
def satAdd (a b : Nat) : Nat := min (a + b) USIZE_MAX

/-- `Instant::duration_since`: the elapsed time from `t` to `now`, or
zero if `t` is later. -/
def durationSince (now t : ℚ) : ℚ := max (now - t) 0

/-- The `SendWindow` state of `src/raknet/reliability/send_window.rs`.
The pending `BTreeMap` is an association list kept in ascending key
order by its producers; `AckTracker` is its sequence-number set. -/
structure SendWindow where
  nextSequenceNumber : Nat
  nextMessageIndex : Nat
  nextOrderIndices : Nat → Nat
  packetQueue : List EncapsulatedPacket
  pendingDatagrams : List (Nat × (Datagram × ℚ × Bool))
  resendQueue : List Nat
  srtt : Option ℚ
  rttVar : Option ℚ
  rto : ℚ
  mtu : Nat
  cwnd : Nat
  ssthresh : Nat
  bytesInFlight : Nat
  ackTrackers : List (Nat × List Nat)
  lastAckTime : ℚ
  congestionHold : Option Datagram

/-- `SendWindow::new` (the `Instant::now()` recorded in `last_ack_time`
is the time origin `0`). -/
def SendWindow.new (mtu : Nat) : SendWindow :=
  { nextSequenceNumber := 0, nextMessageIndex := 0,
    nextOrderIndices := fun _ => 0, packetQueue := [],
    pendingDatagrams := [], resendQueue := [],
    srtt := none, rttVar := none, rto := INITIAL_RTO, mtu := mtu,
    cwnd := max (INITIAL_CWND_PACKETS * mtu) MIN_CWND_BYTES,
    ssthresh := USIZE_MAX, bytesInFlight := 0, ackTrackers := [],
    lastAckTime := 0, congestionHold := none }

/-- `SendWindow::queue_packet`: builds the encapsulated packet, assigns
message/order indices per the reliability, and appends it to the packet
queue; no splitting is performed (the source carries a TODO for it). -/
def SendWindow.queuePacket (s : SendWindow) (buffer : List Nat)
    (reliability : Reliability) (channel : Option Nat) : SendWindow × Option Nat :=
  let packet : EncapsulatedPacket :=
    { reliability := reliability, isSplit := false, messageIndex := none,
      sequenceIndex := none, orderIndex := none, orderChannel := none,
      splitCount := none, splitId := none, splitIndex := none,
      buffer := buffer, ackId := none }
  let (packet, s) :=
    if reliability.isReliable then
      ({ packet with messageIndex := some s.nextMessageIndex },
       { s with nextMessageIndex := (s.nextMessageIndex + 1) % 2 ^ 32 })
    else (packet, s)
  let (packet, s) :=
    if reliability.needsOrderingInfo then
      let ch := channel.getD 0
      let orderIndexRef := s.nextOrderIndices ch
      let packet := { packet with orderChannel := some ch, orderIndex := some orderIndexRef }
      let s :=
        if reliability.isOrdered then
          { s with nextOrderIndices :=
              updateFn s.nextOrderIndices ch ((orderIndexRef + 1) % 2 ^ 32) }
        else s
      (packet, s)
    else (packet, s)
  ({ s with packetQueue := s.packetQueue ++ [packet] }, packet.messageIndex)

/-- `SendWindow::update_rto`: Jacobson/Karels smoothing followed by the
clamp of the RTO to `[MIN_RTO, MAX_RTO]`. The `f64` arithmetic of the
source is carried out exactly over `ℚ`. -/
def SendWindow.updateRto (s : SendWindow) (rtt : ℚ) : SendWindow :=
  let s :=
    match s.srtt, s.rttVar with
    | some srtt, some rttVar =>
      let varDiff := |srtt - rtt|
      let newRttVar := (1 - RTT_BETA) * rttVar + RTT_BETA * varDiff
      let newSrtt := (1 - RTT_ALPHA) * srtt + RTT_ALPHA * rtt
      { s with srtt := some newSrtt, rttVar := some newRttVar }
    | _, _ => { s with srtt := some rtt, rttVar := some (rtt / 2) }
  let rtoCandidate := s.srtt.getD 0 + s.rttVar.getD 0 * 4
  { s with rto := max MIN_RTO (min rtoCandidate MAX_RTO) }

/-- The per-sequence-number body of `SendWindow::handle_ack`: remove the
datagram from the pending map; if it was present, add its recorded size
to the acked-byte total, take an RTT sample, and record the sequence
number as acked. -/
def SendWindow.ackOne (st : SendWindow × List Nat × Nat) (now : ℚ) (seq : Nat) :
    SendWindow × List Nat × Nat :=
  let (s, ackedSeqNums, totalAckedBytes) := st
  match qremove seq s.pendingDatagrams with
  | (some (ackedDatagram, sendTime, _), pending2) =>
    let s := { s with pendingDatagrams := pending2 }
    let totalAckedBytes := totalAckedBytes + ackedDatagram.sizeForCongestionControl.getD 0
    let s := s.updateRto (durationSince now sendTime)
    (s, ackedSeqNums ++ [seq], totalAckedBytes)
  | (none, _) => (s, ackedSeqNums, totalAckedBytes)

/-- The per-record body of the loop of `SendWindow::handle_ack`: a
`Single` acks one sequence number; a `Range` collects the pending keys
inside the range (in ascending key order, as `BTreeMap::range` yields
them) and acks each. -/
def SendWindow.ackRecordStep (now : ℚ) (st : SendWindow × List Nat × Nat)
    (record : AckNackRecord) : SendWindow × List Nat × Nat :=
  match record with
  | .single seq => SendWindow.ackOne st now seq
  | .range start fin =>
    let keysInRange := (st.1.pendingDatagrams.map Prod.fst).filter
      (fun k => decide (start ≤ k ∧ k ≤ fin))
    keysInRange.foldl (fun st2 seq => SendWindow.ackOne st2 now seq) st

/-- `SendWindow::handle_ack`. -/
def SendWindow.handleAck (s : SendWindow) (records : List AckNackRecord) (now : ℚ) :
    SendWindow :=
  let (s, ackedSeqNums, totalAckedBytes) :=
    records.foldl (SendWindow.ackRecordStep now) (s, [], 0)
  let s :=
    if totalAckedBytes > 0 then
      let s := { s with bytesInFlight := s.bytesInFlight - totalAckedBytes }
      let s :=
        if s.cwnd < s.ssthresh then { s with cwnd := satAdd s.cwnd totalAckedBytes }
        else { s with cwnd := satAdd s.cwnd s.mtu }
      let newTrackers :=
        s.ackTrackers.filterMap
          (fun tracker =>
            if tracker.2.all (fun seq => decide (seq ∈ ackedSeqNums)) then none
            else some (tracker.1, tracker.2.filter (fun seq => decide (seq ∉ ackedSeqNums))))
      { s with ackTrackers := newTrackers }
    else s
  { s with lastAckTime := now }

/-- `SendWindow::tick`: collect the pending reliable datagrams whose age
exceeds the RTO; on any timeout, double the RTO (capped at `MAX_RTO`),
halve `ssthresh` (floored at `MIN_CWND_BYTES`), reset `cwnd`, and mark
the timed-out sequence numbers for resend. -/
def SendWindow.tick (s : SendWindow) (now : ℚ) : SendWindow :=
  let retransmitTimeout :=
    (s.pendingDatagrams.filter
      (fun e =>
        decide (durationSince now e.2.2.1 > s.rto) && e.2.2.2
          && decide (e.1 ∉ s.resendQueue))).map Prod.fst
  if retransmitTimeout.isEmpty then s
  else
    let s :=
      { s with rto := min (s.rto * 2) MAX_RTO,
               ssthresh := max (s.cwnd / 2) MIN_CWND_BYTES,
               cwnd := MIN_CWND_BYTES }
    let newResendQueue :=
      retransmitTimeout.foldl
        (fun rq seq => if seq ∈ rq then rq else rq ++ [seq])
        s.resendQueue
    { s with resendQueue := newResendQueue }

/-- One observable operation on a send window, as named by the RTO-clamp
property: an incoming ACK (with its receipt time) or a tick. -/
inductive SendWindowStep where
  | ack (records : List AckNackRecord) (now : ℚ)
  | tick (now : ℚ)

/-- Applies a sequence of ACK/tick operations to a send window. -/
def runSendWindow (steps : List SendWindowStep) (s : SendWindow) : SendWindow :=
  steps.foldl
    (fun s step =>
      match step with
      | .ack records now => s.handleAck records now
      | .tick now => s.tick now)
    s

/-- Little-endian `u16` encoding (`write_u16_le`). -/
def u16leBytes (n : Nat) : List Nat := [n % 256, n / 256 % 256]

/-- Big-endian `u32` encoding (`write_u32_be`). -/
def u32beBytes (n : Nat) : List Nat :=
  [n / 2 ^ 24 % 256, n / 2 ^ 16 % 256, n / 2 ^ 8 % 256, n % 256]

/-- A socket address in the two shapes `write_address` distinguishes. -/
inductive RakAddr where
  | v4 (a b c d : Nat) (port : Nat)
  | v6 (port : Nat) (flowinfo : Nat) (octets : List Nat) (scopeId : Nat)
  deriving DecidableEq, Repr

/-- `write_address` of `src/raknet/protocol/mod.rs`: IPv4 writes a type
byte 4, the four bitwise-complemented octets, and the big-endian port;
IPv6 writes type 6, little-endian family 23, port, flowinfo, the 16
address bytes, and the scope id. -/
def writeAddress : RakAddr → List Nat
  | .v4 a b c d port =>
    [4, 255 - a % 256, 255 - b % 256, 255 - c % 256, 255 - d % 256] ++ u16beBytes port
  | .v6 port flowinfo octets scopeId =>
    [6] ++ u16leBytes 23 ++ u16beBytes port ++ u32beBytes flowinfo ++ octets
      ++ u32beBytes scopeId

/-- The dummy padding address `"0.0.0.0:0"` used by
`handle_connection_request`. -/
def dummyAddress : RakAddr := .v4 0 0 0 0 0

/-- `CONNECTION_REQUEST_ACCEPTED` packet id (0x10). -/
def CONNECTION_REQUEST_ACCEPTED : Nat := 16

/-- The `ConnectionRequestAccepted` payload built by
`RakNetSession::handle_connection_request` in `src/raknet/session.rs`:
packet id, client address, `u16` system index 0, ten dummy padding
addresses, the request time written as 0, and the accepted time. -/
def connectionRequestAcceptedBytes (clientAddress : RakAddr) (acceptedTime : Nat) :
    List Nat :=
  [CONNECTION_REQUEST_ACCEPTED] ++ writeAddress clientAddress ++ u16beBytes 0
    ++ (List.replicate 10 (writeAddress dummyAddress)).flatten
    ++ u64beBytes 0 ++ u64beBytes acceptedTime

/-- The `ConnectionRequestAccepted` layout described by the
specification, parametrised by the number of padding address slots:
packet id, client address, `u16` system index, `paddingSlots` dummy
addresses, request time, accepted time. -/
def specConnectionRequestAccepted (paddingSlots : Nat) (clientAddress : RakAddr)
    (requestTime acceptedTime : Nat) : List Nat :=
  [CONNECTION_REQUEST_ACCEPTED] ++ writeAddress clientAddress ++ u16beBytes 0
    ++ (List.replicate paddingSlots (writeAddress dummyAddress)).flatten
    ++ u64beBytes requestTime ++ u64beBytes acceptedTime

/-- `OFFLINE_MESSAGE_DATA_ID`: the 16-byte offline-message magic. -/
def OFFLINE_MESSAGE_DATA_ID : List Nat :=
  [0x00, 0xff, 0xff, 0x00, 0xfe, 0xfe, 0xfe, 0xfe,
   0xfd, 0xfd, 0xfd, 0xfd, 0x12, 0x34, 0x56, 0x78]

/-- `MIN_MTU_SIZE` of `src/raknet/protocol/offline.rs`; enforced only by
the OCR2 handler, not by `handle_open_connection_request_1`. -/
def MIN_MTU_SIZE : Nat := 400

/-- The responses `handle_open_connection_request_1` can send. -/
inductive Ocr1Response where
  | noReply
  | incompatibleProtocol (serverProtocol : Nat) (serverGuid : Nat)
  | reply1 (serverGuid : Nat) (useSecurity : Nat) (mtu : Nat)
  deriving DecidableEq, Repr

/-- `handle_open_connection_request_1` of `src/raknet/protocol/mod.rs`:
malformed or bad-magic packets get no reply; a protocol mismatch gets
`IncompatibleProtocolVersion`; otherwise the reply announces
`min(data_len + ip_overhead + 8, server_mtu)` as a `u16`, with no lower
clamp. -/
def handle_open_connection_request_1 (data : List Nat) (isIpv4 : Bool)
    (serverProtocol serverMtu serverGuid : Nat) : Ocr1Response :=
  if data.length < 1 + 16 + 1 then .noReply
  else if (data.drop 1).take 16 ≠ OFFLINE_MESSAGE_DATA_ID then .noReply
  else
    let clientProtocolVersion := (data.drop 17).headD 0
    if clientProtocolVersion ≠ serverProtocol then
      .incompatibleProtocol serverProtocol serverGuid
    else
      let ipHeaderSize := if isIpv4 then 20 else 40
      let calculatedMtu := data.length + ipHeaderSize + 8
      let finalMtu := min calculatedMtu serverMtu
      .reply1 serverGuid 0 (finalMtu % 2 ^ 16)

/-- A concrete IPv4 client address used in concrete evaluations. -/
def exClientAddress : RakAddr := .v4 127 0 0 1 19132

/-- A concrete `UnreliableSequenced` encapsulated packet with the given
order and sequence indices, on ordering channel 0. -/
def mkSequencedPacket (oi si : Nat) : EncapsulatedPacket :=
  { reliability := .unreliableSequenced, isSplit := false, messageIndex := none,
    sequenceIndex := some si, orderIndex := some oi, orderChannel := some 0,
    splitCount := none, splitId := none, splitIndex := none, buffer := [], ackId := none }

/-- A concrete `ReliableOrdered` encapsulated packet with the given order
index, on ordering channel 0. -/
def mkOrderedPacket (oi : Nat) : EncapsulatedPacket :=
  { reliability := .reliableOrdered, isSplit := false, messageIndex := some 0,
    sequenceIndex := none, orderIndex := some oi, orderChannel := some 0,
    splitCount := none, splitId := none, splitIndex := none, buffer := [], ackId := none }

/-- A concrete data datagram carrying the given packets. -/
def mkDatagram (seq : Nat) (ps : List EncapsulatedPacket) : Datagram :=
  { headerFlags := 132, sequenceNumber := seq, packets := ps,
    sendTime := none, nextSendTime := none, sizeForCongestionControl := none }

/-- A concrete receive window whose next expected order index on every
channel is 5, with empty queues. -/
def exReceiveWindowAt5 : ReceiveWindow :=
  { ReceiveWindow.new with nextOrderIndices := fun _ => 5 }

/-- First step of the concrete sequenced-packet run: a fresh window
handling a datagram whose only packet is sequenced with order index 1
and sequence index 5. -/
def seqRunStep1 : ReceiveWindow × Option (List EncapsulatedPacket) :=
  ReceiveWindow.new.handleDatagram (mkDatagram 0 [mkSequencedPacket 1 5])

/-- Second step of the concrete sequenced-packet run: the resulting
window handling a datagram whose only packet is sequenced with order
index 0 and sequence index 9. -/
def seqRunStep2 : ReceiveWindow × Option (List EncapsulatedPacket) :=
  seqRunStep1.1.handleDatagram (mkDatagram 1 [mkSequencedPacket 0 9])

/-- A concrete OpenConnectionRequest1 packet: id, magic, protocol 11, no
padding (18 bytes total). -/
def exOcr1Data : List Nat := [5] ++ OFFLINE_MESSAGE_DATA_ID ++ [11]

/-- The sequence numbers a single ACK/NACK record names: the one number
of a `Single`, or every number of an inclusive `Range`. -/
def recordNames : AckNackRecord → Nat → Prop
  | .single n, seq => seq = n
  | .range a b, seq => a ≤ seq ∧ seq ≤ b

/-- The invariant of one ordering-queue entry on channel `c`: the stored
packet went through the ordering path of this channel, is keyed by its
own order index, and that index fits in a `u32`. -/
def GoodEntry (c : Nat) (e : Nat × EncapsulatedPacket) : Prop :=
  e.2.reliability.needsOrderingInfo = true ∧ e.2.orderChannel = some c ∧
    e.2.orderIndex = some e.1 ∧ e.1 < 2 ^ 32

/-- The ordering-queue invariant of a receive window, over all channels. -/
def GoodQueues (w : ReceiveWindow) : Prop :=
  ∀ c, ∀ e ∈ w.orderingQueues c, GoodEntry c e

/-- The RTO bound stated by the specification: the retransmission
timeout lies between `MIN_RTO` (100 ms) and `MAX_RTO` (5 s). -/
def rtoInRange (s : SendWindow) : Prop :=
  MIN_RTO ≤ s.rto ∧ s.rto ≤ MAX_RTO

/-- A concrete send window for witnesses: fresh at MTU 1400 with a
single pending datagram recorded under sequence number 5. -/
def exSendWindowPending5 : SendWindow :=
  { SendWindow.new 1400 with
      pendingDatagrams := [(5, (mkDatagram 5 [], 2, true))],
      bytesInFlight := 40 }

/-- A concrete run of three datagrams whose ordered packets arrive with
order indices 2, 0, 1; indices 0 and 1 must be delivered only once index
0 arrives, and index 2 only after 1. -/
def exOrderedRun : List Datagram :=
  [mkDatagram 0 [mkOrderedPacket 2], mkDatagram 1 [mkOrderedPacket 0],
   mkDatagram 2 [mkOrderedPacket 1]]

end Amethyst

namespace Amethyst

/-- C1: the claim is falsified at a concrete input. For the client
address 127.0.0.1:19132 and accepted time 0, the
`ConnectionRequestAccepted` payload built by `handle_connection_request`
is not the layout with exactly 20 padding address slots that the claim
describes (the source writes 10 dummy addresses). -/
theorem c1_counterexample_ten_not_twenty_slots :
    connectionRequestAcceptedBytes exClientAddress 0 ≠
      specConnectionRequestAccepted 20 exClientAddress 0 0 := by
  decide

/-- C1 (amended): the `ConnectionRequestAccepted` payload enqueued for
reliable sending contains the client address, a `u16` system index of 0,
exactly 10 padding address slots, a request time written as 0, and the
accepted time. -/
theorem c1_connection_request_accepted_layout (clientAddress : RakAddr)
    (acceptedTime : Nat) :
    connectionRequestAcceptedBytes clientAddress acceptedTime =
      specConnectionRequestAccepted 10 clientAddress 0 acceptedTime := by
  rfl

/-- C2: the claim is falsified at a concrete input. Queueing a
1000-byte payload into a send window with MTU 500 leaves a single
unsplit packet (no `is_split`, no split metadata) in the packet queue,
even though its framed size, 4 + 1013 bytes, exceeds the MTU. -/
theorem c2_counterexample_no_split :
    (((SendWindow.new 500).queuePacket (List.replicate 1000 0)
        .reliableOrdered (some 0)).1.packetQueue.map
      (fun p => (p.isSplit, p.splitCount, p.splitId, p.splitIndex,
                 decide (500 < 4 + p.calculateSize), p.buffer.length))) =
      [(false, none, none, none, true, 1000)] := by
  decide

/-- C2 (amended): `queue_packet` performs no splitting; every payload is
enqueued as exactly one encapsulated packet with `is_split` false, no
split metadata, and the whole payload as its buffer, whatever its size
relative to the MTU. -/
theorem c2_queue_packet_never_splits (s : SendWindow) (buffer : List Nat)
    (reliability : Reliability) (channel : Option Nat) :
    ∃ p : EncapsulatedPacket,
      (s.queuePacket buffer reliability channel).1.packetQueue =
          s.packetQueue ++ [p] ∧
        p.isSplit = false ∧ p.splitCount = none ∧ p.splitId = none ∧
        p.splitIndex = none ∧ p.buffer = buffer ∧ p.reliability = reliability := by
  cases hrel : reliability.isReliable <;>
    cases hord : reliability.needsOrderingInfo <;>
      cases hord2 : reliability.isOrdered <;>
        simp [SendWindow.queuePacket, hrel, hord, hord2]

/-- C4: the claim is falsified at a concrete input. For the bit length
L = 65535 (header bytes `[0x00, 0xFF, 0xFF]`, no payload), the claim
demands a payload byte length of ceil(65535/8) = 8192 and hence an
`UnexpectedEof` failure, but the wrapping `u16` addition makes the code
compute 0 bytes and decode successfully with an empty buffer. -/
theorem c4_counterexample_u16_wrap :
    EncapsulatedPacket.decode [0, 255, 255] =
        .ok ({ reliability := .unreliable, isSplit := false, messageIndex := none,
               sequenceIndex := none, orderIndex := none, orderChannel := none,
               splitCount := none, splitId := none, splitIndex := none,
               buffer := [], ackId := none }, []) ∧
      encapLengthBytes 65535 = 0 ∧ (65535 + 7) / 8 = 8192 := by
  refine ⟨by rfl, by decide, by decide⟩

/-- C4 (amended): the byte length is computed as `((L + 7) mod 2^16) / 8`,
which equals ceil(L/8) for every L ≤ 65528 (the `u16` addition wraps for
larger L); `decode` then reads exactly that many payload bytes and fails
with `UnexpectedEof` when fewer bytes remain, shown here on the
plain-Unreliable header shape. -/
theorem c4_length_bits_rounding :
    (∀ L : Nat, L ≤ 65528 → encapLengthBytes L = (L + 7) / 8) ∧
      (∀ (L : Nat) (payload : List Nat), L < 2 ^ 16 →
        (payload.length < encapLengthBytes L →
          EncapsulatedPacket.decode ([0] ++ u16beBytes L ++ payload) =
            .error (.unexpectedEof (encapLengthBytes L) payload.length)) ∧
        (encapLengthBytes L ≤ payload.length →
          EncapsulatedPacket.decode ([0] ++ u16beBytes L ++ payload) =
            .ok ({ reliability := .unreliable, isSplit := false, messageIndex := none,
                   sequenceIndex := none, orderIndex := none, orderChannel := none,
                   splitCount := none, splitId := none, splitIndex := none,
                   buffer := payload.take (encapLengthBytes L), ackId := none },
                 payload.drop (encapLengthBytes L)))) := by
  refine ⟨fun L hL => by simp only [encapLengthBytes]; omega, fun L payload hL => ⟨?_, ?_⟩⟩
  · intro h
    have hv : L / 256 % 256 * 256 + L % 256 = L := by omega
    simp [EncapsulatedPacket.decode, u16beBytes, readU8, readU16be,
      Reliability.fromU8, Reliability.isReliable, Reliability.isSequenced,
      Reliability.isOrdered, hv, h, bind, Except.bind, pure, Except.pure,
      throw, throwThe, MonadExceptOf.throw, Functor.map, Except.map]
  · intro h
    have hv : L / 256 % 256 * 256 + L % 256 = L := by omega
    have h2 : ¬ (payload.length < encapLengthBytes L) := by omega
    simp [EncapsulatedPacket.decode, u16beBytes, readU8, readU16be,
      Reliability.fromU8, Reliability.isReliable, Reliability.isSequenced,
      Reliability.isOrdered, hv, h2, bind, Except.bind, pure, Except.pure,
      throw, throwThe, MonadExceptOf.throw, Functor.map, Except.map]

/-- C4 witness: the amended theorem at L = 16 with a 3-byte payload; 2
of the 3 bytes are consumed as payload. -/
theorem c4_length_bits_rounding_witness :
    encapLengthBytes 16 = (16 + 7) / 8 ∧
      EncapsulatedPacket.decode ([0] ++ u16beBytes 16 ++ [1, 2, 3]) =
        .ok ({ reliability := .unreliable, isSplit := false, messageIndex := none,
               sequenceIndex := none, orderIndex := none, orderChannel := none,
               splitCount := none, splitId := none, splitIndex := none,
               buffer := [1, 2, 3].take (encapLengthBytes 16), ackId := none },
             [1, 2, 3].drop (encapLengthBytes 16)) :=
  ⟨c4_length_bits_rounding.1 16 (by decide),
   (c4_length_bits_rounding.2 16 [1, 2, 3] (by decide)).2 (by decide)⟩

/-- C5: the coalescing example of the claim holds, but the round-trip
half fails on the code: on the 513-element input 0,1,…,512 the
optimizer's proactive range clamp emits `Range(0,512)` and then a
spurious `Single(513)` for a sequence number that was never in the
input, so extraction does not reproduce the input (the same slip makes
the repository's own `test_optimize_large_range_clamping`, traced on its
input 100,…,661, fail). -/
theorem c5_optimize_clamp_code_bug :
    optimize_ack_nack_records [1, 2, 3, 5, 7, 8, 9] =
        [.range 1 3, .single 5, .range 7 9] ∧
      optimize_ack_nack_records (List.range 513) =
        [.range 0 512, .single 513] ∧
      extractSequenceNumbers (optimize_ack_nack_records (List.range 513)) ≠
        List.range 513 ∧
      optimize_ack_nack_records (List.range' 100 562) =
        [.range 100 612, .single 613, .range 613 661] := by
  refine ⟨by decide, by decide, by decide, by decide⟩

/-- C6: the claim is falsified at a concrete input. An 18-byte OCR1
with matching protocol 11 against a server MTU of 1400 is answered with
MTU `min(18 + 20 + 8, 1400) = 46`, not the value 400 that a clamp below
at `MIN_MTU_SIZE` would give. -/
theorem c6_counterexample_no_lower_clamp :
    handle_open_connection_request_1 exOcr1Data true 11 1400 777 =
        .reply1 777 0 46 ∧
      (46 : Nat) ≠ max (min (18 + 20 + 8) 1400) MIN_MTU_SIZE := by
  refine ⟨by decide, by decide⟩

/-- C6 (amended): on a well-formed OCR1 (at least 18 bytes, valid magic)
the server replies with `IncompatibleProtocolVersion` when the client
protocol differs from the server's, and otherwise announces the MTU
`min(udp_payload_len + ip_overhead + 8, server_mtu)` with no lower
clamp. -/
theorem c6_ocr1_mtu_negotiation (data : List Nat) (isIpv4 : Bool)
    (serverProtocol serverMtu serverGuid : Nat)
    (hlen : 18 ≤ data.length)
    (hmagic : (data.drop 1).take 16 = OFFLINE_MESSAGE_DATA_ID)
    (hmtu : serverMtu < 2 ^ 16) :
    ((data.drop 17).headD 0 = serverProtocol →
        handle_open_connection_request_1 data isIpv4 serverProtocol serverMtu serverGuid =
          .reply1 serverGuid 0
            (min (data.length + (if isIpv4 then 20 else 40) + 8) serverMtu)) ∧
      ((data.drop 17).headD 0 ≠ serverProtocol →
        handle_open_connection_request_1 data isIpv4 serverProtocol serverMtu serverGuid =
          .incompatibleProtocol serverProtocol serverGuid) := by
  have hlen2 : ¬ (data.length < 1 + 16 + 1) := by omega
  have hmagic2 : List.take 16 data.tail = OFFLINE_MESSAGE_DATA_ID := by
    simpa using hmagic
  constructor
  · intro hproto
    have hproto2 : data[17]?.getD 0 = serverProtocol := by simpa using hproto
    have hmod : min (data.length + (if isIpv4 then 20 else 40) + 8) serverMtu % 2 ^ 16 =
        min (data.length + (if isIpv4 then 20 else 40) + 8) serverMtu :=
      Nat.mod_eq_of_lt (lt_of_le_of_lt (min_le_right _ _) hmtu)
    simp only [handle_open_connection_request_1]
    rw [if_neg hlen2, if_neg (by simp [hmagic2]), if_neg (by simp [hproto2]), hmod]
  · intro hproto
    have hproto2 : ¬ data[17]?.getD 0 = serverProtocol := by
      intro h
      exact hproto (by simpa using h)
    simp only [handle_open_connection_request_1]
    rw [if_neg hlen2, if_neg (by simp [hmagic2]), if_pos (by simpa using hproto2)]

/-- C6 witness: the amended theorem applied to the concrete 18-byte OCR1
with matching protocol. -/
theorem c6_ocr1_mtu_negotiation_witness :
    handle_open_connection_request_1 exOcr1Data true 11 1400 777 =
      .reply1 777 0 (min (18 + 20 + 8) 1400) := by
  have h := (c6_ocr1_mtu_negotiation exOcr1Data true 11 1400 777
      (by decide) (by decide) (by decide)).1 (by decide)
  simpa using h

/-- Round-trip of the little-endian 24-bit triad through its reader. -/
theorem readU24le_u24leBytes (n : Nat) (rest : List Nat) (h : n < 2 ^ 24) :
    readU24le (u24leBytes n ++ rest) = .ok (n, rest) := by
  simp only [u24leBytes, List.cons_append, List.nil_append, readU24le, Except.ok.injEq,
    Prod.mk.injEq, and_true]
  omega

/-- Every range record `parseRangeRecord` returns is well-ordered and
spans at most `MAX_RANGE_SIZE` sequence numbers. -/
theorem parseRangeRecord_good (rest rest2 : List Nat) (rec : AckNackRecord)
    (h : parseRangeRecord rest = .ok (rec, rest2)) :
    ∀ s e, rec = .range s e → s ≤ e ∧ e - s ≤ MAX_RANGE_SIZE - 1 := by
  intro s e hrec
  subst hrec
  unfold parseRangeRecord at h
  split at h
  · simp at h
  · split at h
    · simp at h
    · split at h
      · simp at h
      · rename_i start r1 heq1 fin r2 heq2 hle
        simp only [Except.ok.injEq, Prod.mk.injEq, AckNackRecord.range.injEq] at h
        obtain ⟨⟨hs, he⟩, hr⟩ := h
        subst hs
        subst he
        simp only [MAX_RANGE_SIZE] at *
        split <;> omega

/-- Every range record accumulated by the record-reading loop of
`AckNack::decode` is well-ordered and spans at most `MAX_RANGE_SIZE`
sequence numbers, provided the accumulator already satisfies this. -/
theorem decodeRecordsLoop_good (count : Nat) :
    ∀ (reader : List Nat) (acc recs : List AckNackRecord),
      decodeRecordsLoop count reader acc = .ok recs →
      (∀ s e, AckNackRecord.range s e ∈ acc → s ≤ e ∧ e - s ≤ MAX_RANGE_SIZE - 1) →
      ∀ s e, AckNackRecord.range s e ∈ recs → s ≤ e ∧ e - s ≤ MAX_RANGE_SIZE - 1 := by
  induction count with
  | zero =>
    intro reader acc recs h hacc
    unfold decodeRecordsLoop at h
    simp only [Except.ok.injEq] at h
    subst h
    exact hacc
  | succ n ih =>
    intro reader acc recs h hacc s e hmem
    unfold decodeRecordsLoop at h
    split at h
    · simp at h
    · split at h
      · simp at h
      · rename_i recordType r1 heqU8
        split at h
        · simp only [ge_iff_le] at h
          split at h
          · simp at h
          · rename_i record r2 heqStep
            have hrecordGood : ∀ s2 e2, record = AckNackRecord.range s2 e2 →
                s2 ≤ e2 ∧ e2 - s2 ≤ MAX_RANGE_SIZE - 1 :=
              parseRangeRecord_good r1 r2 record heqStep
            split at h
            · simp only [Except.ok.injEq] at h
              subst h
              rcases List.mem_append.mp hmem with hin | hin
              · exact hacc s e hin
              · have hrec2 : AckNackRecord.range s e = record := by simpa using hin
                exact hrecordGood s e hrec2.symm
            · refine ih r2 (acc ++ [record]) recs h ?_ s e hmem
              intro s2 e2 hin
              rcases List.mem_append.mp hin with hin2 | hin2
              · exact hacc s2 e2 hin2
              · have hrec2 : AckNackRecord.range s2 e2 = record := by simpa using hin2
                exact hrecordGood s2 e2 hrec2.symm
        · simp only [ge_iff_le] at h
          split at h
          · simp at h
          · rename_i seqv r2 heqSeq
            have hsingle : ∀ s2 e2, seqv = AckNackRecord.range s2 e2 → False := by
              intro s2 e2 hr
              rw [hr] at heqSeq
              split at heqSeq
              · simp at heqSeq
              · simp at heqSeq
            split at h
            · simp only [Except.ok.injEq] at h
              subst h
              rcases List.mem_append.mp hmem with hin | hin
              · exact hacc s e hin
              · have hrec2 : AckNackRecord.range s e = seqv := by simpa using hin
                exact (hsingle s e hrec2.symm).elim
            · refine ih r2 (acc ++ [seqv]) recs h ?_ s e hmem
              intro s2 e2 hin
              rcases List.mem_append.mp hin with hin2 | hin2
              · exact hacc s2 e2 hin2
              · have hrec2 : AckNackRecord.range s2 e2 = seqv := by simpa using hin2
                exact (hsingle s2 e2 hrec2.symm).elim
        · simp at h

/-- C9: `AckNack::decode` rejects a wire range record whose start
exceeds its end with `InvalidData`; a wire range spanning more than
`MAX_RANGE_SIZE` numbers is truncated to its first `MAX_RANGE_SIZE`
numbers; and every range record a successful decode returns spans at
most `MAX_RANGE_SIZE` sequence numbers. -/
theorem c9_acknack_decode_range_rules :
    (∀ (s e : Nat) (rest : List Nat), s < 2 ^ 24 → e < 2 ^ 24 → e < s →
        parseRangeRecord (u24leBytes s ++ u24leBytes e ++ rest) =
          .error (.invalidData "Invalid range record: start greater than end")) ∧
      (∀ (s e : Nat) (rest : List Nat), s < 2 ^ 24 → e < 2 ^ 24 → s ≤ e →
        MAX_RANGE_SIZE ≤ e - s →
        parseRangeRecord (u24leBytes s ++ u24leBytes e ++ rest) =
          .ok (.range s (s + MAX_RANGE_SIZE - 1), rest)) ∧
      (∀ (reader : List Nat) (isNack : Bool) (a : AckNack),
        AckNack.decode reader isNack = .ok a →
        ∀ s e, AckNackRecord.range s e ∈ a.records →
          s ≤ e ∧ e - s ≤ MAX_RANGE_SIZE - 1) := by
  refine ⟨?_, ?_, ?_⟩
  · intro s e rest hs he hlt
    rw [List.append_assoc]
    simp only [parseRangeRecord, readU24le_u24leBytes s (u24leBytes e ++ rest) hs,
      readU24le_u24leBytes e rest he]
    rw [if_pos (by omega)]
  · intro s e rest hs he hle hspan
    rw [List.append_assoc]
    simp only [parseRangeRecord, readU24le_u24leBytes s (u24leBytes e ++ rest) hs,
      readU24le_u24leBytes e rest he]
    rw [if_neg (by omega), if_pos (by simpa [ge_iff_le] using hspan)]
  · intro reader isNack a h s e hmem
    unfold AckNack.decode at h
    split at h
    · simp at h
    · split at h
      · simp at h
      · rename_i records heqLoop
        simp only [Except.ok.injEq] at h
        subst h
        exact decodeRecordsLoop_good _ _ [] records heqLoop (by simp) s e hmem

/-- C9 witness: the invalid range 20..10 is rejected, the range 0..600
is truncated to 0..511, and a concrete decoded `Range(3,4)` satisfies
the span bound. -/
theorem c9_acknack_decode_range_rules_witness :
    parseRangeRecord (u24leBytes 20 ++ u24leBytes 10 ++ []) =
        .error (.invalidData "Invalid range record: start greater than end") ∧
      parseRangeRecord (u24leBytes 0 ++ u24leBytes 600 ++ []) =
        .ok (.range 0 (0 + MAX_RANGE_SIZE - 1), []) ∧
      (3 ≤ 4 ∧ 4 - 3 ≤ MAX_RANGE_SIZE - 1) :=
  ⟨c9_acknack_decode_range_rules.1 20 10 [] (by decide) (by decide) (by decide),
   c9_acknack_decode_range_rules.2.1 0 600 [] (by decide) (by decide) (by decide) (by decide),
   c9_acknack_decode_range_rules.2.2 (u16beBytes 1 ++ [0] ++ u24leBytes 3 ++ u24leBytes 4)
     false { isNack := false, records := [.range 3 4] } (by rfl) 3 4 (by decide)⟩

/-- Removing an absent key from an association list is the identity. -/
theorem qremove_of_not_mem {α : Type} (k : Nat) (l : List (Nat × α))
    (h : ∀ e ∈ l, e.1 ≠ k) : qremove k l = (none, l) := by
  induction l with
  | nil => rfl
  | cons hd tl ih =>
    obtain ⟨k1, v⟩ := hd
    unfold qremove
    rw [if_neg (h (k1, v) (List.mem_cons_self _ _))]
    rw [ih (fun e he => h e (List.mem_cons_of_mem _ he))]

/-- Acking a sequence number absent from the pending map changes
nothing. -/
theorem ackOne_absent (st : SendWindow × List Nat × Nat) (now : ℚ) (seq : Nat)
    (h : ∀ e ∈ st.1.pendingDatagrams, e.1 ≠ seq) :
    SendWindow.ackOne st now seq = st := by
  obtain ⟨s, acked, total⟩ := st
  simp only [SendWindow.ackOne]
  rw [qremove_of_not_mem seq s.pendingDatagrams h]

/-- An ACK record none of whose sequence numbers is pending changes
nothing. -/
theorem ackRecordStep_absent (now : ℚ) (st : SendWindow × List Nat × Nat)
    (record : AckNackRecord)
    (h : ∀ seq, recordNames record seq → ∀ e ∈ st.1.pendingDatagrams, e.1 ≠ seq) :
    SendWindow.ackRecordStep now st record = st := by
  match record with
  | .single seq =>
    exact ackOne_absent st now seq (h seq rfl)
  | .range start fin =>
    have hempty : (st.1.pendingDatagrams.map Prod.fst).filter
        (fun k => decide (start ≤ k ∧ k ≤ fin)) = [] := by
      rw [List.filter_eq_nil_iff]
      intro k hk
      simp only [decide_eq_true_eq, not_and]
      intro h1 h2
      obtain ⟨e, he, hek⟩ := List.mem_map.mp hk
      exact absurd hek (h k ⟨h1, h2⟩ e he)
    simp only [SendWindow.ackRecordStep]
    rw [hempty]
    rfl

/-- The record loop of `handle_ack` is the identity when no named
sequence number is pending. -/
theorem foldl_ackRecordStep_absent (now : ℚ) :
    ∀ (rs : List AckNackRecord) (st : SendWindow × List Nat × Nat),
      (∀ r ∈ rs, ∀ seq, recordNames r seq → ∀ e ∈ st.1.pendingDatagrams, e.1 ≠ seq) →
      rs.foldl (SendWindow.ackRecordStep now) st = st := by
  intro rs
  induction rs with
  | nil => intro st h; rfl
  | cons r rest ih =>
    intro st h
    rw [List.foldl_cons,
      ackRecordStep_absent now st r (h r (List.mem_cons_self _ _)),
      ih st (fun r2 hr2 => h r2 (List.mem_cons_of_mem _ hr2))]

/-- C10: when every sequence number named by the records is absent from
the pending map, `handle_ack` only updates the last-ACK timestamp: no
RTT sample is taken, and the pending map, bytes-in-flight, CWND,
SSTHRESH and every other field keep their previous values. -/
theorem c10_handle_ack_noop_frame (s : SendWindow) (records : List AckNackRecord)
    (now : ℚ)
    (habsent : ∀ r ∈ records, ∀ seq, recordNames r seq →
      ∀ e ∈ s.pendingDatagrams, e.1 ≠ seq) :
    s.handleAck records now = { s with lastAckTime := now } := by
  unfold SendWindow.handleAck
  rw [foldl_ackRecordStep_absent now records (s, [], 0) habsent]
  rfl

/-- C10 witness: a send window with one pending datagram (sequence 5),
acked with records naming only 3 and 10..12, changes only its last-ACK
timestamp. -/
theorem c10_handle_ack_noop_frame_witness :
    exSendWindowPending5.handleAck [.single 3, .range 10 12] 7 =
      { exSendWindowPending5 with lastAckTime := 7 } :=
  c10_handle_ack_noop_frame exSendWindowPending5 [.single 3, .range 10 12] 7 (by
    intro r hr seq hname e he
    have he5 : e.1 = 5 := by
      have : e = (5, (mkDatagram 5 [], 2, true)) := by
        simpa [exSendWindowPending5, SendWindow.new] using he
      rw [this]
    rw [he5]
    rcases List.mem_cons.mp hr with h1 | h1
    · subst h1
      simp only [recordNames] at hname
      omega
    · rcases List.mem_cons.mp h1 with h2 | h2
      · subst h2
        simp only [recordNames] at hname
        omega
      · simp at h2)

/-- The clamp at the end of `update_rto` always lands in
`[MIN_RTO, MAX_RTO]`, whatever the candidate value. -/
theorem clamp_rto_mem (c : ℚ) :
    MIN_RTO ≤ max MIN_RTO (min c MAX_RTO) ∧ max MIN_RTO (min c MAX_RTO) ≤ MAX_RTO :=
  ⟨le_max_left _ _,
   max_le (by norm_num [MIN_RTO, MAX_RTO]) (min_le_right _ _)⟩

/-- `update_rto` always leaves the RTO inside `[MIN_RTO, MAX_RTO]`,
for any RTT sample whatsoever. -/
theorem updateRto_rtoInRange (s : SendWindow) (rtt : ℚ) :
    rtoInRange (s.updateRto rtt) := by
  unfold rtoInRange SendWindow.updateRto
  split
  · exact clamp_rto_mem _
  · exact clamp_rto_mem _

/-- Acking one sequence number keeps the RTO inside the clamp. -/
theorem ackOne_rtoInRange (st : SendWindow × List Nat × Nat) (now : ℚ) (seq : Nat)
    (h : rtoInRange st.1) : rtoInRange (SendWindow.ackOne st now seq).1 := by
  obtain ⟨s, acked, total⟩ := st
  simp only [SendWindow.ackOne]
  split
  · exact updateRto_rtoInRange _ _
  · exact h

/-- Acking a list of sequence numbers keeps the RTO inside the clamp. -/
theorem foldl_ackOne_rtoInRange (now : ℚ) :
    ∀ (keys : List Nat) (st : SendWindow × List Nat × Nat), rtoInRange st.1 →
      rtoInRange ((keys.foldl (fun st2 seq => SendWindow.ackOne st2 now seq) st)).1 := by
  intro keys
  induction keys with
  | nil => intro st h; exact h
  | cons k rest ih =>
    intro st h
    rw [List.foldl_cons]
    exact ih _ (ackOne_rtoInRange st now k h)

/-- Processing one ACK record keeps the RTO inside the clamp. -/
theorem ackRecordStep_rtoInRange (now : ℚ) (st : SendWindow × List Nat × Nat)
    (record : AckNackRecord) (h : rtoInRange st.1) :
    rtoInRange (SendWindow.ackRecordStep now st record).1 := by
  match record with
  | .single seq => exact ackOne_rtoInRange st now seq h
  | .range start fin =>
    simp only [SendWindow.ackRecordStep]
    exact foldl_ackOne_rtoInRange now _ st h

/-- `handle_ack` keeps the RTO inside the clamp for arbitrary records
and an arbitrary receipt time (hence arbitrary RTT samples). -/
theorem handleAck_rtoInRange (s : SendWindow) (records : List AckNackRecord) (now : ℚ)
    (h : rtoInRange s) : rtoInRange (s.handleAck records now) := by
  unfold SendWindow.handleAck
  have hfold : ∀ (rs : List AckNackRecord) (st : SendWindow × List Nat × Nat),
      rtoInRange st.1 → rtoInRange (rs.foldl (SendWindow.ackRecordStep now) st).1 := by
    intro rs
    induction rs with
    | nil => intro st hst; exact hst
    | cons r rest ih =>
      intro st hst
      rw [List.foldl_cons]
      exact ih _ (ackRecordStep_rtoInRange now st r hst)
  have hres := hfold records (s, [], 0) h
  revert hres
  generalize records.foldl (SendWindow.ackRecordStep now) (s, [], 0) = res
  obtain ⟨s2, acked, total⟩ := res
  intro hres
  dsimp only
  split
  · split
    · exact hres
    · exact hres
  · exact hres

/-- `tick` keeps the RTO inside the clamp: doubling is capped at
`MAX_RTO` and cannot fall below `MIN_RTO`. -/
theorem tick_rtoInRange (s : SendWindow) (now : ℚ) (h : rtoInRange s) :
    rtoInRange (s.tick now) := by
  unfold SendWindow.tick
  dsimp only
  split
  · exact h
  · obtain ⟨h1, h2⟩ := h
    constructor
    · refine le_min ?_ ?_
      · have : (0 : ℚ) < MIN_RTO := by norm_num [MIN_RTO]
        nlinarith
      · norm_num [MIN_RTO, MAX_RTO]
    · exact min_le_right _ _

/-- A fresh send window starts with its RTO (500 ms) inside the clamp. -/
theorem new_rtoInRange (mtu : Nat) : rtoInRange (SendWindow.new mtu) := by
  constructor <;> norm_num [SendWindow.new, rtoInRange, MIN_RTO, MAX_RTO, INITIAL_RTO]

/-- C8: starting from a freshly created send window, after every
sequence of `handle_ack` operations (with arbitrary records and receipt
times, hence arbitrary RTT samples including zero and arbitrarily large
ones) and `tick` operations, the RTO lies in `[100 ms, 5 s]`. -/
theorem c8_rto_always_clamped (mtu : Nat) (steps : List SendWindowStep) :
    MIN_RTO ≤ (runSendWindow steps (SendWindow.new mtu)).rto ∧
      (runSendWindow steps (SendWindow.new mtu)).rto ≤ MAX_RTO := by
  have main : ∀ (ss : List SendWindowStep) (s : SendWindow), rtoInRange s →
      rtoInRange (runSendWindow ss s) := by
    intro ss
    induction ss with
    | nil => intro s h; exact h
    | cons step rest ih =>
      intro s h
      unfold runSendWindow at *
      rw [List.foldl_cons]
      match step with
      | .ack records now => exact ih _ (handleAck_rtoInRange s records now h)
      | .tick now => exact ih _ (tick_rtoInRange s now h)
  exact main steps (SendWindow.new mtu) (new_rtoInRange mtu)

/-- C3: the claim is falsified at a concrete run. A fresh receive
window handling a datagram whose only packet is `UnreliableSequenced`
with sequence index 5 (greater than anything seen on channel 0) and
order index 1 delivers nothing and holds the packet in the ordering
queue; the next datagram (order index 0, sequence index 9) releases
both, so the first packet is delivered later — the receive window never
consults `sequence_index` and never discards-or-delivers immediately. -/
theorem c3_counterexample_sequenced_held_back :
    seqRunStep1.2 = none ∧
      (seqRunStep1.1.orderingQueues 0).map Prod.fst = [1] ∧
      (seqRunStep2.2.getD []).map (fun p => p.sequenceIndex) = [some 9, some 5] := by
  refine ⟨by rfl, by rfl, by rfl⟩

/-- C3 (amended): incoming sequenced packets get no special treatment:
the receive window routes them through the ordering-channel logic keyed
on `order_index`, ignoring `sequence_index` — an order index below the
channel's next expected index is discarded, one above is held back in
the ordering queue, and one equal to it is delivered at once. -/
theorem c3_sequenced_uses_ordering_path (w : ReceiveWindow) (p : EncapsulatedPacket)
    (c i : Nat)
    (hseq : p.reliability.isSequenced = true)
    (hch : p.orderChannel = some c)
    (hoi : p.orderIndex = some i) :
    (i < w.nextOrderIndices c → processEncap w p = (w, [])) ∧
      (w.nextOrderIndices c < i → (processEncap w p).2 = [] ∧
        (processEncap w p).1.orderingQueues c = qinsert i p (w.orderingQueues c) ∧
        (processEncap w p).1.nextOrderIndices c = w.nextOrderIndices c) ∧
      (i = w.nextOrderIndices c → (processEncap w p).2.head? = some p) := by
  have hneeds : p.reliability.needsOrderingInfo = true := by
    unfold Reliability.needsOrderingInfo
    rw [hseq]
    simp
  refine ⟨?_, ?_, ?_⟩
  · intro hlt
    simp only [processEncap, hneeds, hch, hoi, if_true]
    rw [if_neg (by omega), if_neg (by omega)]
  · intro hgt
    simp only [processEncap, hneeds, hch, hoi, if_true]
    rw [if_neg (by omega), if_pos (by omega)]
    refine ⟨rfl, ?_, rfl⟩
    simp [updateFn]
  · intro heq
    simp only [processEncap, hneeds, hch, hoi, if_true]
    rw [if_pos heq]
    generalize drainQueue (w.orderingQueues c) ((w.nextOrderIndices c + 1) % 2 ^ 32) = d
    obtain ⟨ps, q2, n2⟩ := d
    rfl

/-- C3 witness: on a window whose next expected order index is 5, a
sequenced packet with order index 3 is discarded outright. -/
theorem c3_sequenced_uses_ordering_path_witness :
    processEncap exReceiveWindowAt5 (mkSequencedPacket 3 0) = (exReceiveWindowAt5, []) :=
  (c3_sequenced_uses_ordering_path exReceiveWindowAt5 (mkSequencedPacket 3 0) 0 3
    rfl rfl rfl).1 (by decide)


/-- Elements kept by `qremove` come from the original association list,
and a successfully removed value was stored under the removed key. -/
theorem qremove_mem {α : Type} (k : Nat) :
    ∀ (l : List (Nat × α)) (r : Option α) (l2 : List (Nat × α)),
      qremove k l = (r, l2) →
      (∀ e ∈ l2, e ∈ l) ∧ (∀ v, r = some v → (k, v) ∈ l) := by
  intro l
  induction l with
  | nil =>
    intro r l2 h
    simp only [qremove] at h
    obtain ⟨h1, h2⟩ := Prod.mk.injEq .. ▸ h
    constructor
    · intro e he
      rw [← h2] at he
      exact absurd he (List.not_mem_nil e)
    · intro v hv
      rw [← h1] at hv
      simp at hv
  | cons hd tl ih =>
    intro r l2 h
    obtain ⟨k1, v1⟩ := hd
    unfold qremove at h
    split at h
    · rename_i heqk
      simp only [Prod.mk.injEq] at h
      obtain ⟨h1, h2⟩ := h
      subst heqk
      constructor
      · intro e he
        rw [← h2] at he
        exact List.mem_cons_of_mem _ he
      · intro v hv
        rw [← h1] at hv
        simp only [Option.some.injEq] at hv
        subst hv
        exact List.mem_cons_self _ _
    · rename_i heqk
      revert h
      generalize hq : qremove k tl = q
      obtain ⟨r2, rest2⟩ := q
      intro h
      simp only [Prod.mk.injEq] at h
      obtain ⟨h1, h2⟩ := h
      obtain ⟨ihm, ihs⟩ := ih r2 rest2 hq
      constructor
      · intro e he
        rw [← h2] at he
        rcases List.mem_cons.mp he with he1 | he1
        · rw [he1]; exact List.mem_cons_self _ _
        · exact List.mem_cons_of_mem _ (ihm e he1)
      · intro v hv
        rw [← h1] at hv
        exact List.mem_cons_of_mem _ (ihs v hv)

/-- Specification of the ordered-delivery drain loop: starting from a
queue whose entries all satisfy `GoodEntry c` and a next index congruent
to `k`, the drain delivers packets whose order indices are the
consecutive values `k, k+1, ...` reduced mod 2^32, leaves a queue of
surviving good entries, and ends at the next index past the run. -/
theorem drainFuel_spec (c : Nat) :
    ∀ (fuel : Nat) (q : List (Nat × EncapsulatedPacket)) (k : Nat),
      (∀ e ∈ q, GoodEntry c e) →
      ∃ m ps q2,
        drainFuel fuel q (k % 2 ^ 32) = (ps, q2, (k + m) % 2 ^ 32) ∧
        deliveredOnChannel c ps = (List.range' k m).map (fun x => x % 2 ^ 32) ∧
        (∀ e ∈ q2, GoodEntry c e) ∧
        (∀ p2 ∈ ps, p2.orderChannel = some c) := by
  intro fuel
  induction fuel with
  | zero =>
    intro q k hq
    refine ⟨0, [], q, by simp [drainFuel], by simp [deliveredOnChannel], hq, by simp⟩
  | succ n ih =>
    intro q k hq
    rcases hrem : qremove (k % 2 ^ 32) q with ⟨r, q1⟩
    rcases r with _ | p
    · refine ⟨0, [], q, ?_, by simp [deliveredOnChannel], hq, by simp⟩
      simp only [drainFuel, hrem, Nat.add_zero]
    · obtain ⟨hsub, hsome⟩ := qremove_mem (k % 2 ^ 32) q (some p) q1 hrem
      have hpmem : (k % 2 ^ 32, p) ∈ q := hsome p rfl
      obtain ⟨hpneeds, hpch, hpoi, hpbound⟩ := hq _ hpmem
      have hgood1 : ∀ e ∈ q1, GoodEntry c e := fun e he => hq e (hsub e he)
      obtain ⟨m1, ps1, q2, hdf, hdel, hgood2, hch2⟩ := ih q1 (k + 1) hgood1
      have hmodstep : (k % 2 ^ 32 + 1) % 2 ^ 32 = (k + 1) % 2 ^ 32 := by omega
      refine ⟨m1 + 1, p :: ps1, q2, ?_, ?_, hgood2, ?_⟩
      · simp only [drainFuel, hrem, hmodstep, hdf]
        have : (k + 1 + m1) % 2 ^ 32 = (k + (m1 + 1)) % 2 ^ 32 := by omega
        rw [this]
      · rw [List.range'_succ, List.map_cons]
        simp only [deliveredOnChannel, List.filterMap_cons, hpneeds, hpch, hpoi]
        simp only [deliveredOnChannel] at hdel
        rw [hdel]
        rw [if_pos (⟨trivial, show p.orderChannel = some c from hpch⟩ :
          True ∧ p.orderChannel = some c)]
        rw [show p.orderIndex = some (k % 2 ^ 32) from hpoi]
      · intro p2 hp2
        rcases List.mem_cons.mp hp2 with h1 | h1
        · rw [h1]; exact hpch
        · exact hch2 p2 h1

/-- Packets delivered by the drain on channel `ch` contribute nothing
to the delivered-order-index trace of a different channel `c`. -/
theorem deliveredOnChannel_nil_of_other (c ch : Nat) (hne : ch ≠ c)
    (ps : List EncapsulatedPacket)
    (h : ∀ p2 ∈ ps, p2.orderChannel = some ch) : deliveredOnChannel c ps = [] := by
  unfold deliveredOnChannel
  rw [List.filterMap_eq_nil_iff]
  intro p2 hp2
  rw [if_neg]
  intro hand
  rw [h p2 hp2] at hand
  simp only [Option.some.injEq] at hand
  exact hne hand.2

/-- Reading an updated map at the updated key. -/
theorem updateFn_same {α : Type} (f : Nat → α) (k : Nat) (v : α) :
    updateFn f k v k = v := by
  simp [updateFn]

/-- Reading an updated map at any other key. -/
theorem updateFn_other {α : Type} (f : Nat → α) (k x : Nat) (v : α) (h : x ≠ k) :
    updateFn f k v x = f x := by
  simp [updateFn, h]

/-- Specification of one `processEncap` step on channel `c`: the queue
invariant is preserved and the step delivers the order indices
`k, ..., k+m-1` (mod 2^32) for some `m`, moving the channel's next
expected index from `k` to `k + m` (mod 2^32). -/
theorem processEncap_spec (w : ReceiveWindow) (p : EncapsulatedPacket) (c k : Nat)
    (hGQ : GoodQueues w) (hwf : WFPacket p) (hnext : w.nextOrderIndices c = k % 2 ^ 32) :
    ∃ m, GoodQueues (processEncap w p).1 ∧
      (processEncap w p).1.nextOrderIndices c = (k + m) % 2 ^ 32 ∧
      deliveredOnChannel c (processEncap w p).2 =
        (List.range' k m).map (fun x => x % 2 ^ 32) := by
  cases hno : p.reliability.needsOrderingInfo with
  | false =>
    refine ⟨0, ?_, ?_, ?_⟩
    · simpa [processEncap, hno] using hGQ
    · simp only [processEncap, hno, Bool.false_eq_true, if_false, Nat.add_zero]
      exact hnext
    · simp [processEncap, hno, deliveredOnChannel]
  | true =>
    cases hchv : p.orderChannel with
    | none =>
      refine ⟨0, ?_, ?_, ?_⟩
      · simpa [processEncap, hno, hchv] using hGQ
      · simp only [processEncap, hno, hchv, if_true, Nat.add_zero]
        exact hnext
      · simp [processEncap, hno, hchv, deliveredOnChannel]
    | some ch =>
      cases hoiv : p.orderIndex with
      | none =>
        refine ⟨0, ?_, ?_, ?_⟩
        · simpa [processEncap, hno, hchv, hoiv] using hGQ
        · simp only [processEncap, hno, hchv, hoiv, if_true, Nat.add_zero]
          exact hnext
        · simp [processEncap, hno, hchv, hoiv, deliveredOnChannel]
      | some i =>
        have hibound : i < 2 ^ 32 := by
          unfold WFPacket at hwf
          rw [hoiv] at hwf
          simpa using hwf
        by_cases heqi : i = w.nextOrderIndices ch
        · by_cases hcc : ch = c
          · subst hcc
            obtain ⟨m1, ps1, q2, hdf, hdel, hgood2, hch2⟩ :=
              drainFuel_spec ch (w.orderingQueues ch).length (w.orderingQueues ch)
                (k + 1) (hGQ ch)
            have hstart : (w.nextOrderIndices ch + 1) % 2 ^ 32 = (k + 1) % 2 ^ 32 := by
              rw [hnext]; omega
            have hred : processEncap w p =
                ({ w with
                    orderingQueues := updateFn w.orderingQueues ch q2,
                    nextOrderIndices :=
                      updateFn w.nextOrderIndices ch ((k + 1 + m1) % 2 ^ 32) },
                 p :: ps1) := by
              simp only [processEncap, hno, hchv, hoiv, if_true]
              rw [if_pos heqi]
              unfold drainQueue
              rw [hstart, hdf]
            refine ⟨m1 + 1, ?_, ?_, ?_⟩
            · rw [hred]
              intro c2 e he
              simp only [updateFn] at he
              by_cases hc2 : c2 = ch
              · rw [if_pos hc2] at he
                rw [hc2]
                exact hgood2 e he
              · rw [if_neg hc2] at he
                exact hGQ c2 e he
            · rw [hred]
              show updateFn w.nextOrderIndices ch ((k + 1 + m1) % 2 ^ 32) ch =
                (k + (m1 + 1)) % 2 ^ 32
              rw [updateFn_same]
              omega
            · rw [hred]
              rw [List.range'_succ, List.map_cons]
              simp only [deliveredOnChannel, List.filterMap_cons, hno, hchv, hoiv,
                and_self, if_true, true_and]
              simp only [deliveredOnChannel] at hdel
              rw [hdel]
              simp only [List.cons.injEq, and_true]
              rw [heqi, hnext]
          · obtain ⟨m1, ps1, q2, hdf, hdel, hgood2, hch2⟩ :=
              drainFuel_spec ch (w.orderingQueues ch).length (w.orderingQueues ch)
                (w.nextOrderIndices ch + 1) (hGQ ch)
            have hred : processEncap w p =
                ({ w with
                    orderingQueues := updateFn w.orderingQueues ch q2,
                    nextOrderIndices :=
                      updateFn w.nextOrderIndices ch
                        ((w.nextOrderIndices ch + 1 + m1) % 2 ^ 32) },
                 p :: ps1) := by
              simp only [processEncap, hno, hchv, hoiv, if_true]
              rw [if_pos heqi]
              unfold drainQueue
              rw [hdf]
            refine ⟨0, ?_, ?_, ?_⟩
            · rw [hred]
              intro c2 e he
              simp only [updateFn] at he
              by_cases hc2 : c2 = ch
              · rw [if_pos hc2] at he
                rw [hc2]
                exact hgood2 e he
              · rw [if_neg hc2] at he
                exact hGQ c2 e he
            · rw [hred]
              show updateFn w.nextOrderIndices ch
                  ((w.nextOrderIndices ch + 1 + m1) % 2 ^ 32) c = (k + 0) % 2 ^ 32
              rw [updateFn_other _ _ _ _ (fun hx => hcc hx.symm)]
              rw [hnext]
              omega
            · rw [hred]
              have hall : ∀ p2 ∈ p :: ps1, p2.orderChannel = some ch := by
                intro p2 hp2
                rcases List.mem_cons.mp hp2 with h1 | h1
                · rw [h1]; exact hchv
                · exact hch2 p2 h1
              rw [deliveredOnChannel_nil_of_other c ch hcc (p :: ps1) hall]
              simp
        · by_cases hgt : i > w.nextOrderIndices ch
          · have hred : processEncap w p =
                ({ w with orderingQueues :=
                    updateFn w.orderingQueues ch (qinsert i p (w.orderingQueues ch)) },
                 []) := by
              simp only [processEncap, hno, hchv, hoiv, if_true]
              rw [if_neg heqi, if_pos hgt]
            refine ⟨0, ?_, ?_, ?_⟩
            · rw [hred]
              intro c2 e he
              simp only [updateFn] at he
              by_cases hc2 : c2 = ch
              · rw [if_pos hc2] at he
                rw [hc2]
                unfold qinsert at he
                rcases List.mem_cons.mp he with h1 | h1
                · rw [h1]
                  exact ⟨hno, hchv, hoiv, hibound⟩
                · rcases hq2 : qremove i (w.orderingQueues ch) with ⟨r2, rest2⟩
                  rw [hq2] at h1
                  exact hGQ ch e ((qremove_mem i (w.orderingQueues ch) r2 rest2 hq2).1 e h1)
              · rw [if_neg hc2] at he
                exact hGQ c2 e he
            · rw [hred]
              show w.nextOrderIndices c = (k + 0) % 2 ^ 32
              rw [hnext]
              omega
            · rw [hred]
              simp [deliveredOnChannel]
          · have hred : processEncap w p = (w, []) := by
              simp only [processEncap, hno, hchv, hoiv, if_true]
              rw [if_neg heqi, if_neg hgt]
            refine ⟨0, ?_, ?_, ?_⟩
            · rw [hred]
              exact hGQ
            · rw [hred]
              show w.nextOrderIndices c = (k + 0) % 2 ^ 32
              rw [hnext]
              omega
            · rw [hred]
              simp [deliveredOnChannel]

/-- The empty-check wrapping of the ready list in `handle_datagram`
collapses under `Option.getD`. -/
theorem getD_isEmpty_ite (l : List EncapsulatedPacket) :
    (if l.isEmpty then (none : Option (List EncapsulatedPacket)) else some l).getD [] = l := by
  cases l <;> simp

/-- Delivered-order-index traces distribute over concatenation. -/
theorem deliveredOnChannel_append (c : Nat) (l1 l2 : List EncapsulatedPacket) :
    deliveredOnChannel c (l1 ++ l2) = deliveredOnChannel c l1 ++ deliveredOnChannel c l2 := by
  simp [deliveredOnChannel, List.filterMap_append]

/-- Two adjacent ranges of consecutive integers glue into one. -/
theorem range'_glue (k m1 m2 : Nat) :
    List.range' k m1 ++ List.range' (k + m1) m2 = List.range' k (m1 + m2) := by
  have h := List.range'_append k m1 m2 1
  simpa [Nat.add_comm] using h

/-- Specification of `processPackets` on channel `c`, by induction on
the packet list: the composite of the per-packet steps again delivers a
gap-free run of order indices starting at the channel's next index. -/
theorem processPackets_spec (c : Nat) :
    ∀ (ps : List EncapsulatedPacket) (w : ReceiveWindow) (k : Nat),
      GoodQueues w → (∀ p ∈ ps, WFPacket p) → w.nextOrderIndices c = k % 2 ^ 32 →
      ∃ m, GoodQueues (processPackets w ps).1 ∧
        (processPackets w ps).1.nextOrderIndices c = (k + m) % 2 ^ 32 ∧
        deliveredOnChannel c (processPackets w ps).2 =
          (List.range' k m).map (fun x => x % 2 ^ 32) := by
  intro ps
  induction ps with
  | nil =>
    intro w k h1 h2 h3
    exact ⟨0, h1, by simpa using h3, by simp [deliveredOnChannel, processPackets]⟩
  | cons p ps ih =>
    intro w k h1 h2 h3
    obtain ⟨m1, hq1, hn1, hd1⟩ :=
      processEncap_spec w p c k h1 (h2 p (List.mem_cons_self _ _)) h3
    obtain ⟨m2, hq2, hn2, hd2⟩ :=
      ih (processEncap w p).1 (k + m1) hq1
        (fun q hq => h2 q (List.mem_cons_of_mem _ hq)) hn1
    have e1 : processPackets w (p :: ps) =
        ((processPackets (processEncap w p).1 ps).1,
         (processEncap w p).2 ++ (processPackets (processEncap w p).1 ps).2) := rfl
    refine ⟨m1 + m2, ?_, ?_, ?_⟩
    · rw [e1]
      exact hq2
    · rw [e1]
      rw [hn2]
      congr 1
      omega
    · rw [e1]
      show deliveredOnChannel c
        ((processEncap w p).2 ++ (processPackets (processEncap w p).1 ps).2) = _
      rw [deliveredOnChannel_append, hd1, hd2, ← List.map_append, range'_glue]

/-- A datagram is either dropped whole (duplicate or window violation),
or its packets are processed by `processPackets` from an intermediate
window with the same ordering queues and next order indices. -/
theorem handleDatagram_cases (w : ReceiveWindow) (d : Datagram) :
    w.handleDatagram d = (w, none) ∨
    ∃ w1 : ReceiveWindow,
      (w.handleDatagram d).1 = (processPackets w1 d.packets).1 ∧
      (w.handleDatagram d).2.getD [] = (processPackets w1 d.packets).2 ∧
      w1.orderingQueues = w.orderingQueues ∧
      w1.nextOrderIndices = w.nextOrderIndices := by
  unfold ReceiveWindow.handleDatagram
  dsimp only
  split
  · left
    rfl
  · split
    · left
      rfl
    · right
      refine ⟨_, rfl, getD_isEmpty_ite _, rfl, rfl⟩

/-- Specification of `handle_datagram` on channel `c`: same shape as
the `processPackets` specification, for a whole datagram. -/
theorem handleDatagram_spec (w : ReceiveWindow) (d : Datagram) (c k : Nat)
    (hGQ : GoodQueues w) (hwf : WFDatagram d)
    (hnext : w.nextOrderIndices c = k % 2 ^ 32) :
    ∃ m, GoodQueues (w.handleDatagram d).1 ∧
      (w.handleDatagram d).1.nextOrderIndices c = (k + m) % 2 ^ 32 ∧
      deliveredOnChannel c ((w.handleDatagram d).2.getD []) =
        (List.range' k m).map (fun x => x % 2 ^ 32) := by
  rcases handleDatagram_cases w d with h | ⟨w1, h1, h2, hq, hn⟩
  · refine ⟨0, ?_, ?_, ?_⟩
    · rw [h]
      exact hGQ
    · rw [h]
      show w.nextOrderIndices c = (k + 0) % 2 ^ 32
      rw [Nat.add_zero]
      exact hnext
    · rw [h]
      simp [deliveredOnChannel]
  · have hGQ1 : GoodQueues w1 := by
      unfold GoodQueues
      rw [hq]
      exact hGQ
    have hnext1 : w1.nextOrderIndices c = k % 2 ^ 32 := by
      rw [hn]
      exact hnext
    obtain ⟨m, hg, hnn, hdd⟩ := processPackets_spec c d.packets w1 k hGQ1 hwf hnext1
    refine ⟨m, ?_, ?_, ?_⟩
    · rw [h1]
      exact hg
    · rw [h1]
      exact hnn
    · rw [h2]
      exact hdd

/-- Specification of a whole run of datagrams through the receive
window, by induction on the datagram list. -/
theorem runReceiveFrom_spec (c : Nat) :
    ∀ (ds : List Datagram) (w : ReceiveWindow) (k : Nat),
      GoodQueues w → (∀ d ∈ ds, WFDatagram d) →
      w.nextOrderIndices c = k % 2 ^ 32 →
      ∃ m, GoodQueues (runReceiveFrom w ds).1 ∧
        (runReceiveFrom w ds).1.nextOrderIndices c = (k + m) % 2 ^ 32 ∧
        deliveredOnChannel c (runReceiveFrom w ds).2 =
          (List.range' k m).map (fun x => x % 2 ^ 32) := by
  intro ds
  induction ds with
  | nil =>
    intro w k h1 h2 h3
    exact ⟨0, h1, by simpa using h3, by simp [deliveredOnChannel, runReceiveFrom]⟩
  | cons d ds ih =>
    intro w k h1 h2 h3
    obtain ⟨m1, hq1, hn1, hd1⟩ :=
      handleDatagram_spec w d c k h1 (h2 d (List.mem_cons_self _ _)) h3
    obtain ⟨m2, hq2, hn2, hd2⟩ :=
      ih (w.handleDatagram d).1 (k + m1) hq1
        (fun q hq => h2 q (List.mem_cons_of_mem _ hq)) hn1
    have e1 : runReceiveFrom w (d :: ds) =
        ((runReceiveFrom (w.handleDatagram d).1 ds).1,
         (w.handleDatagram d).2.getD [] ++
           (runReceiveFrom (w.handleDatagram d).1 ds).2) := rfl
    refine ⟨m1 + m2, ?_, ?_, ?_⟩
    · rw [e1]
      exact hq2
    · rw [e1]
      rw [hn2]
      congr 1
      omega
    · rw [e1]
      show deliveredOnChannel c
        ((w.handleDatagram d).2.getD [] ++
          (runReceiveFrom (w.handleDatagram d).1 ds).2) = _
      rw [deliveredOnChannel_append, hd1, hd2, ← List.map_append, range'_glue]

/-- C7: on every ordering channel, the order indices of the packets a
fresh receive window delivers upstream over any run of well-formed
datagrams form exactly the gap-free, repeat-free ascending run
0, 1, 2, ... (as long as fewer than 2^32 packets are delivered, before
u32 wraparound); and any packet needing ordering info whose order index
is below the channel's next expected index is discarded outright as a
duplicate, leaving the window unchanged. -/
theorem c7_ordered_delivery (ds : List Datagram) (c : Nat)
    (hwf : ∀ d ∈ ds, WFDatagram d)
    (hlen : (deliveredOnChannel c (runReceive ds).2).length ≤ 2 ^ 32) :
    deliveredOnChannel c (runReceive ds).2 =
      List.range (deliveredOnChannel c (runReceive ds).2).length ∧
    ∀ (w : ReceiveWindow) (p : EncapsulatedPacket) (ch i : Nat),
      p.reliability.needsOrderingInfo = true → p.orderChannel = some ch →
      p.orderIndex = some i → i < w.nextOrderIndices ch →
      processEncap w p = (w, []) := by
  constructor
  · have hnew : GoodQueues ReceiveWindow.new := by
      intro ch e he
      simp [ReceiveWindow.new] at he
    have hstart : ReceiveWindow.new.nextOrderIndices c = 0 % 2 ^ 32 := by
      simp [ReceiveWindow.new]
    obtain ⟨m, _, _, hd⟩ := runReceiveFrom_spec c ds ReceiveWindow.new 0 hnew hwf hstart
    have hd2 : deliveredOnChannel c (runReceive ds).2 =
        (List.range' 0 m).map (fun x => x % 2 ^ 32) := hd
    have hm : (deliveredOnChannel c (runReceive ds).2).length = m := by
      rw [hd2]
      simp
    have hmle : m ≤ 2 ^ 32 := by
      rw [hm] at hlen
      exact hlen
    have hall : ∀ x ∈ List.range' 0 m, x % 2 ^ 32 = x := by
      intro x hx
      have hxm : x < m := by
        rw [List.mem_range'_1] at hx
        omega
      exact Nat.mod_eq_of_lt (lt_of_lt_of_le hxm hmle)
    have hid : (List.range' 0 m).map (fun x => x % 2 ^ 32) = List.range' 0 m := by
      have h2 : (List.range' 0 m).map (fun x => x % 2 ^ 32) =
          (List.range' 0 m).map id := List.map_congr_left hall
      rw [h2, List.map_id]
    rw [hm, List.range_eq_range', hd2, hid]
  · intro w p ch i hno hch hoi hlt
    have h1 : ¬ i = w.nextOrderIndices ch := by omega
    have h2 : ¬ i > w.nextOrderIndices ch := by omega
    simp only [processEncap, hno, hch, hoi, if_true]
    rw [if_neg h1, if_neg h2]

/-- C7 witness: the run delivering order indices 2, 0, 1 out of order
across three datagrams comes out as 0, 1, 2 upstream, and a window
expecting index 5 discards an ordered packet with index 3. -/
theorem c7_ordered_delivery_witness :
    deliveredOnChannel 0 (runReceive exOrderedRun).2 =
      List.range (deliveredOnChannel 0 (runReceive exOrderedRun).2).length ∧
    processEncap exReceiveWindowAt5 (mkOrderedPacket 3) = (exReceiveWindowAt5, []) := by
  have h := c7_ordered_delivery exOrderedRun 0
    (by unfold WFDatagram WFPacket; decide) (by decide)
  exact ⟨h.1, h.2 exReceiveWindowAt5 (mkOrderedPacket 3) 0 3 (by decide) rfl rfl
    (by decide)⟩

end Amethyst
